import Mathlib

/-!
# Verification of the Pomodoro timer (src/main.rs)

A shallow embedding of the program in `src/main.rs`: a two-thread
Pomodoro timer.  The timer thread (`timer_thread` closure in `main`) is
modelled as a deterministic machine driven by an environment that
supplies, per call site, the result of each non-blocking channel
receive (`receiver.try_recv()`) and the externally visible value of the
shared `running: AtomicBool` at each of its loads.  One countdown tick
advances elapsed time by exactly one second (the `thread::sleep(1 s)`
granularity of the source; sub-second drift is out of scope).

The input-handling loop at the bottom of `main` and the two
configuration prompts are modelled as pure functions on lists of input
lines.  `u64` arithmetic is `Nat` with explicit reduction modulo `2^64`
where the source can overflow.
-/

def U64_MOD : Nat := 2 ^ 64

def U64_MAX : Nat := 2 ^ 64 - 1

/-- `const DEFAULT_WORK_MINUTES: u64 = 25;` -/
def DEFAULT_WORK_MINUTES : Nat := 25

/-- `const DEFAULT_BREAK_MINUTES: u64 = 5;` -/
def DEFAULT_BREAK_MINUTES : Nat := 5

/-- `enum TimerState { Work, Break, Paused, Stopped }` -/
inductive TimerState
  | Work
  | Break
  | Paused
  | Stopped
deriving DecidableEq, Repr

/-- `enum TimerCommand { Pause, Resume, Skip, Quit }` -/
inductive TimerCommand
  | Pause
  | Resume
  | Skip
  | Quit
deriving DecidableEq, Repr

/-- Result of one `receiver.try_recv()` call. -/
inductive RecvResult
  | ok (c : TimerCommand)
  | empty
  | disconnected
deriving DecidableEq, Repr

/-- Observable actions of the timer thread, in program order:
console notifications, the remaining-time display at the top of each
inner-loop iteration (carrying the elapsed seconds it was computed
from), and the two kinds of sleep. -/
inductive Event
  | sessionStarted (label : String) (ordinal : Nat)
  | pauseNotice
  | skipNotice
  | tickTop (elapsed : Nat)
  | tickSleep
  | pausedSleep
  | sessionFinished (label : String)
  | stopped
deriving DecidableEq, Repr

/-- The environment of the timer thread: `recv n` is what the `n`-th
`try_recv()` call returns, and `flag n` is the contribution of the
other thread to the `n`-th load of the shared `running` flag (`false`
once the input thread has executed `running.store(false)` before that
load).  The observed value of a load is the machine's own copy of the
flag ANDed with this contribution. -/
structure Env where
  recv : Nat → RecvResult
  flag : Nat → Bool

/-- How one execution of the inner countdown loop ended. -/
inductive InnerExit
  | natural
  | pausedBreak
  | skipBreak
  | quitBreak
  | disconnected
  | fuelOut
deriving DecidableEq, Repr

/-- Result of one execution of the inner countdown loop
(`while elapsed_time < session_duration { ... }`). -/
structure InnerRes where
  st : TimerState
  running : Bool
  polls : Nat
  elapsed : Nat
  events : List Event
  exit : InnerExit
deriving DecidableEq, Repr

/-- The inner countdown loop of `timer_thread`.  Per iteration, in
source order: display remaining time, one `try_recv()` (dispatching on
Pause / Skip / Quit / Resume / Empty / Disconnected), the
`if let TimerState::Paused = current_state { break }` re-check, then
`thread::sleep(1 s)` and the elapsed-time update (one second per tick).
`fuel` is a structural bound on the number of iterations; every call
site passes `fuel = session_duration`, which is enough since elapsed
time starts at `0` and grows by one each iteration (see
`innerGo_no_fuelOut`). -/
def innerGo (env : Env) (duration : Nat) :
    Nat → Nat → Nat → TimerState → Bool → InnerRes
  | fuel, polls, elapsed, st, running =>
    if elapsed < duration then
      match fuel with
      | 0 => ⟨st, running, polls, elapsed, [], InnerExit.fuelOut⟩
      | fuel + 1 =>
        match env.recv polls with
        | RecvResult.ok TimerCommand.Pause =>
            ⟨TimerState.Paused, running, polls + 1, elapsed,
              [Event.tickTop elapsed, Event.pauseNotice], InnerExit.pausedBreak⟩
        | RecvResult.ok TimerCommand.Skip =>
            ⟨st, running, polls + 1, elapsed,
              [Event.tickTop elapsed, Event.skipNotice], InnerExit.skipBreak⟩
        | RecvResult.ok TimerCommand.Quit =>
            ⟨st, false, polls + 1, elapsed,
              [Event.tickTop elapsed], InnerExit.quitBreak⟩
        | RecvResult.disconnected =>
            ⟨st, false, polls + 1, elapsed,
              [Event.tickTop elapsed], InnerExit.disconnected⟩
        | RecvResult.ok TimerCommand.Resume
        | RecvResult.empty =>
            if st = TimerState.Paused then
              ⟨st, running, polls + 1, elapsed,
                [Event.tickTop elapsed], InnerExit.pausedBreak⟩
            else
              let r := innerGo env duration fuel (polls + 1) (elapsed + 1) st running
              ⟨r.st, r.running, r.polls, r.elapsed,
                Event.tickTop elapsed :: Event.tickSleep :: r.events, r.exit⟩
    else
      ⟨st, running, polls, elapsed, [], InnerExit.natural⟩

/-- `Duration::from_secs(duration_minutes * 60)` — the `u64` product
wraps modulo `2^64` (no overflow guard in the source). -/
def sessionSecs (minutes : Nat) : Nat := minutes * 60 % U64_MOD

/-- The two configured durations, fixed before the timer thread starts. -/
structure Config where
  work_minutes : Nat
  break_minutes : Nat
deriving DecidableEq, Repr

/-- The timer thread's mutable state, plus counters indexing into the
environment: `polls` counts `try_recv()` calls, `loads` counts loads of
the shared `running` flag.  `halted` records that the outer
`while running_clone.load(..)` loop has exited. -/
structure Machine where
  current_state : TimerState
  session_count : Nat
  running : Bool
  polls : Nat
  loads : Nat
  halted : Bool
deriving DecidableEq, Repr

/-- `current_state = Work, session_count = 0` at thread start. -/
def initMachine : Machine :=
  ⟨TimerState.Work, 0, true, 0, 0, false⟩

/-- The tail of one active outer-loop iteration of `timer_thread`,
after the inner countdown returned `r`:
`if let TimerState::Paused = current_state { continue }`, then — with
one load of the shared flag each — the session-finished check
(`running && elapsed >= duration`) and the state-switch step
(Work→Break / Break→Work, incrementing `session_count`). -/
def afterInner (env : Env) (label : String) (session_duration : Nat)
    (m : Machine) (r : InnerRes) : Machine × List Event :=
  if r.st = TimerState.Paused then
    ({ m with current_state := r.st, running := r.running, polls := r.polls },
      r.events)
  else
    let obs1 := r.running && env.flag m.loads
    let finEvs :=
      if obs1 && decide (session_duration ≤ r.elapsed) then
        [Event.sessionFinished label]
      else []
    let obs2 := r.running && env.flag (m.loads + 1)
    let m1 : Machine :=
      { m with current_state := r.st, running := r.running,
               polls := r.polls, loads := m.loads + 2 }
    if obs2 then
      match r.st with
      | TimerState.Work =>
          ({ m1 with current_state := TimerState.Break,
                     session_count := m.session_count + 1 },
            r.events ++ finEvs)
      | TimerState.Break =>
          ({ m1 with current_state := TimerState.Work,
                     session_count := m.session_count + 1 },
            r.events ++ finEvs)
      | _ => (m1, r.events ++ finEvs)
    else
      (m1, r.events ++ finEvs)

/-- One iteration of the outer loop body of `timer_thread` (everything
below the `while running_clone.load` check).  Paused/Stopped: sleep
100 ms and `continue` — no channel receive, no flag load.  Otherwise:
pick (duration, label), emit the session-started notification, run the
inner countdown, then finish the iteration with `afterInner`. -/
def outerIter (cfg : Config) (env : Env) (m : Machine) : Machine × List Event :=
  match m.current_state with
  | TimerState.Paused | TimerState.Stopped => (m, [Event.pausedSleep])
  | st =>
    let duration_minutes :=
      if st = TimerState.Work then cfg.work_minutes else cfg.break_minutes
    let label := if st = TimerState.Work then "Work" else "Break"
    let session_duration := sessionSecs duration_minutes
    let startEv := Event.sessionStarted label (m.session_count + 1)
    let r := innerGo env session_duration session_duration m.polls 0 st m.running
    let p := afterInner env label session_duration m r
    (p.1, startEv :: p.2)

/-- Up to `n` iterations of the outer
`while running_clone.load(Ordering::SeqCst)` loop.  Each iteration
first loads the shared flag; a `false` observation exits the loop
(`"Timer thread stopped."`). -/
def run (cfg : Config) (env : Env) : Nat → Machine → Machine × List Event
  | 0, m => (m, [])
  | n + 1, m =>
    if m.halted then (m, [])
    else if m.running && env.flag m.loads then
      let m1 := { m with loads := m.loads + 1 }
      let p := outerIter cfg env m1
      let q := run cfg env n p.1
      (q.1, p.2 ++ q.2)
    else
      ({ m with loads := m.loads + 1, halted := true }, [Event.stopped])

/-! ## Input reader and configuration prompts -/

/-- Rust's `str::trim` (leading and trailing whitespace removed),
computed on the character list. -/
def trimChars (cs : List Char) : List Char :=
  ((cs.dropWhile Char.isWhitespace).reverse.dropWhile
    Char.isWhitespace).reverse

/-- Rust's `str::trim` as a `String` transformation. -/
def strTrim (s : String) : String := ⟨trimChars s.data⟩

/-- `input.trim().to_lowercase()` applied to one line (ASCII
lower-casing character by character). -/
def normalizeLine (s : String) : String :=
  ⟨(trimChars s.data).map Char.toLower⟩

/-- The command a normalized line maps to, if any. -/
def cmdOfLine (s : String) : Option TimerCommand :=
  match normalizeLine s with
  | "p" => some TimerCommand.Pause
  | "r" => some TimerCommand.Resume
  | "s" => some TimerCommand.Skip
  | "q" => some TimerCommand.Quit
  | _ => none

/-- Outcome of the input-handling loop: commands sent on the channel in
order, whether `running.store(false)` was executed, and how many usage
hints were printed. -/
structure ReaderResult where
  sent : List TimerCommand
  shutdown : Bool
  hints : Nat
deriving DecidableEq, Repr

/-- The `for line in stdin().lines()` loop in `main`: "p"/"r"/"s" send
their command and continue; "q" sends Quit, stores `false` into the
shared flag and breaks out of the loop; anything else prints a usage
hint.  The list argument is the whole of standard input (the loop ends
early at "q", otherwise at end-of-stream). -/
def inputReader : List String → ReaderResult
  | [] => ⟨[], false, 0⟩
  | l :: rest =>
    match cmdOfLine l with
    | some TimerCommand.Quit => ⟨[TimerCommand.Quit], true, 0⟩
    | some c =>
        let r := inputReader rest
        ⟨c :: r.sent, r.shutdown, r.hints⟩
    | none =>
        let r := inputReader rest
        ⟨r.sent, r.shutdown, r.hints + 1⟩

/-- Rust's `str::parse::<u64>()` digit accumulation: `none` on the
first non-digit character. -/
def decLoop : List Char → Nat → Option Nat
  | [], acc => some acc
  | c :: cs, acc =>
      if c.isDigit then decLoop cs (acc * 10 + (c.toNat - 48)) else none

/-- `input.trim().parse::<u64>()`: an optional leading `+`, then one or
more ASCII digits, rejecting the empty string and values outside the
`u64` range. -/
def parseU64 (s : String) : Option Nat :=
  let cs := match s.data with
    | '+' :: rest => rest
    | cs => cs
  match cs with
  | [] => none
  | _ =>
    match decLoop cs 0 with
    | some v => if v ≤ U64_MAX then some v else none
    | none => none

/-- One configuration prompt:
`if let Ok(value) = input.trim().parse() { if value > 0 { minutes = value; } }` —
the default survives unless the trimmed line parses as a positive
`u64`. -/
def configMinutes (input : String) (dflt : Nat) : Nat :=
  match parseU64 (strTrim input) with
  | some value => if value > 0 then value else dflt
  | none => dflt

/-! ## Derived observations -/

/-- The session-start notifications in an event trace. -/
def startedEvents (evs : List Event) : List Event :=
  evs.filter fun e =>
    match e with
    | Event.sessionStarted _ _ => true
    | _ => false

/-- Whether a trace contains any session-started or session-finished
notification. -/
def hasNotif (evs : List Event) : Bool :=
  evs.any fun e =>
    match e with
    | Event.sessionStarted _ _ => true
    | Event.sessionFinished _ => true
    | _ => false

/-- Number of remaining-time displays (tops of the inner loop) in a
trace: each one is immediately preceded by exactly one `try_recv()`
poll in the source, so it counts the channel receives of the trace. -/
def countTops (evs : List Event) : Nat :=
  (evs.filter fun e =>
    match e with
    | Event.tickTop _ => true
    | _ => false).length

/-- An environment in which every `try_recv()` finds the channel empty
and the input thread never clears the shared flag. -/
def envEmpty : Env := ⟨fun _ => RecvResult.empty, fun _ => true⟩
/-! ## Unfolding lemmas for the inner countdown loop -/

theorem innerGo_zero (env : Env) (d polls elapsed : Nat) (st : TimerState)
    (running : Bool) :
    innerGo env d 0 polls elapsed st running =
      if elapsed < d then ⟨st, running, polls, elapsed, [], InnerExit.fuelOut⟩
      else ⟨st, running, polls, elapsed, [], InnerExit.natural⟩ := rfl

theorem innerGo_stop (env : Env) (d fuel polls elapsed : Nat) (st : TimerState)
    (running : Bool) (h : ¬ elapsed < d) :
    innerGo env d fuel polls elapsed st running =
      ⟨st, running, polls, elapsed, [], InnerExit.natural⟩ := by
  cases fuel <;> simp [innerGo, h]

theorem innerGo_succ_pause (env : Env) (d fuel polls elapsed : Nat)
    (st : TimerState) (running : Bool) (h : elapsed < d)
    (hr : env.recv polls = RecvResult.ok TimerCommand.Pause) :
    innerGo env d (fuel + 1) polls elapsed st running =
      ⟨TimerState.Paused, running, polls + 1, elapsed,
        [Event.tickTop elapsed, Event.pauseNotice], InnerExit.pausedBreak⟩ := by
  simp [innerGo, h, hr]

theorem innerGo_succ_skip (env : Env) (d fuel polls elapsed : Nat)
    (st : TimerState) (running : Bool) (h : elapsed < d)
    (hr : env.recv polls = RecvResult.ok TimerCommand.Skip) :
    innerGo env d (fuel + 1) polls elapsed st running =
      ⟨st, running, polls + 1, elapsed,
        [Event.tickTop elapsed, Event.skipNotice], InnerExit.skipBreak⟩ := by
  simp [innerGo, h, hr]

theorem innerGo_succ_quit (env : Env) (d fuel polls elapsed : Nat)
    (st : TimerState) (running : Bool) (h : elapsed < d)
    (hr : env.recv polls = RecvResult.ok TimerCommand.Quit) :
    innerGo env d (fuel + 1) polls elapsed st running =
      ⟨st, false, polls + 1, elapsed,
        [Event.tickTop elapsed], InnerExit.quitBreak⟩ := by
  simp [innerGo, h, hr]

theorem innerGo_succ_disc (env : Env) (d fuel polls elapsed : Nat)
    (st : TimerState) (running : Bool) (h : elapsed < d)
    (hr : env.recv polls = RecvResult.disconnected) :
    innerGo env d (fuel + 1) polls elapsed st running =
      ⟨st, false, polls + 1, elapsed,
        [Event.tickTop elapsed], InnerExit.disconnected⟩ := by
  simp [innerGo, h, hr]

theorem innerGo_succ_fall (env : Env) (d fuel polls elapsed : Nat)
    (st : TimerState) (running : Bool) (h : elapsed < d)
    (hr : env.recv polls = RecvResult.ok TimerCommand.Resume ∨
          env.recv polls = RecvResult.empty)
    (hst : ¬ st = TimerState.Paused) :
    innerGo env d (fuel + 1) polls elapsed st running =
      ⟨(innerGo env d fuel (polls + 1) (elapsed + 1) st running).st,
       (innerGo env d fuel (polls + 1) (elapsed + 1) st running).running,
       (innerGo env d fuel (polls + 1) (elapsed + 1) st running).polls,
       (innerGo env d fuel (polls + 1) (elapsed + 1) st running).elapsed,
       Event.tickTop elapsed :: Event.tickSleep ::
         (innerGo env d fuel (polls + 1) (elapsed + 1) st running).events,
       (innerGo env d fuel (polls + 1) (elapsed + 1) st running).exit⟩ := by
  rcases hr with hr | hr <;> simp [innerGo, h, hr, hst]

theorem innerGo_succ_fall_paused (env : Env) (d fuel polls elapsed : Nat)
    (running : Bool) (h : elapsed < d)
    (hr : env.recv polls = RecvResult.ok TimerCommand.Resume ∨
          env.recv polls = RecvResult.empty) :
    innerGo env d (fuel + 1) polls elapsed TimerState.Paused running =
      ⟨TimerState.Paused, running, polls + 1, elapsed,
        [Event.tickTop elapsed], InnerExit.pausedBreak⟩ := by
  rcases hr with hr | hr <;> simp [innerGo, h, hr]
/-! ## Invariants of the inner countdown loop -/

theorem innerGo_no_fuelOut (env : Env) (d : Nat) :
    ∀ fuel polls elapsed st running, d - elapsed ≤ fuel →
      (innerGo env d fuel polls elapsed st running).exit ≠ InnerExit.fuelOut := by
  intro fuel
  induction fuel with
  | zero =>
      intro polls elapsed st running hfuel
      have h : ¬ elapsed < d := by omega
      simp [innerGo_stop env d 0 polls elapsed st running h]
  | succ n ih =>
      intro polls elapsed st running hfuel
      by_cases h : elapsed < d
      · rcases hr : env.recv polls with c | - | -
        · cases c
          · simp [innerGo_succ_pause env d n polls elapsed st running h hr]
          · by_cases hst : st = TimerState.Paused
            · subst hst
              simp [innerGo_succ_fall_paused env d n polls elapsed running h (Or.inl hr)]
            · rw [innerGo_succ_fall env d n polls elapsed st running h (Or.inl hr) hst]
              exact ih (polls + 1) (elapsed + 1) st running (by omega)
          · simp [innerGo_succ_skip env d n polls elapsed st running h hr]
          · simp [innerGo_succ_quit env d n polls elapsed st running h hr]
        · by_cases hst : st = TimerState.Paused
          · subst hst
            simp [innerGo_succ_fall_paused env d n polls elapsed running h (Or.inr hr)]
          · rw [innerGo_succ_fall env d n polls elapsed st running h (Or.inr hr) hst]
            exact ih (polls + 1) (elapsed + 1) st running (by omega)
        · simp [innerGo_succ_disc env d n polls elapsed st running h hr]
      · simp [innerGo_stop env d (n + 1) polls elapsed st running h]
theorem innerGo_master (env : Env) (d : Nat) :
    ∀ fuel polls elapsed st running r,
      innerGo env d fuel polls elapsed st running = r →
      elapsed ≤ r.elapsed ∧
      (r.exit = InnerExit.natural → r.elapsed = max elapsed d) ∧
      (r.exit ≠ InnerExit.natural → r.elapsed < d) ∧
      (r.exit = InnerExit.pausedBreak → r.st = TimerState.Paused) ∧
      (¬ st = TimerState.Paused → r.exit ≠ InnerExit.pausedBreak → r.st = st) ∧
      ((r.exit = InnerExit.quitBreak ∨ r.exit = InnerExit.disconnected) →
        r.running = false) ∧
      (r.exit ≠ InnerExit.quitBreak → r.exit ≠ InnerExit.disconnected →
        r.running = running) ∧
      r.polls = polls + countTops r.events ∧
      hasNotif r.events = false ∧
      (∀ e, Event.tickTop e ∈ r.events → elapsed ≤ e ∧ e < d) := by
  intro fuel
  induction fuel with
  | zero =>
      intro polls elapsed st running r hr
      by_cases h : elapsed < d <;>
        · rw [innerGo_zero] at hr
          simp only [h, if_true, if_false] at hr
          subst hr
          simp [countTops, hasNotif]
          omega
  | succ n ih =>
      intro polls elapsed st running r hr
      by_cases h : elapsed < d
      · rcases hrc : env.recv polls with c | - | -
        · cases c
          · rw [innerGo_succ_pause env d n polls elapsed st running h hrc] at hr
            subst hr
            simp [countTops, hasNotif]
            omega
          · by_cases hst : st = TimerState.Paused
            · subst hst
              rw [innerGo_succ_fall_paused env d n polls elapsed running h
                (Or.inl hrc)] at hr
              subst hr
              simp [countTops, hasNotif]
              omega
            · rw [innerGo_succ_fall env d n polls elapsed st running h
                (Or.inl hrc) hst] at hr
              subst hr
              dsimp only
              obtain ⟨h1, h2, h3, h4, h5, h6, h7, h8, h9, h10⟩ :=
                ih (polls + 1) (elapsed + 1) st running _ rfl
              refine ⟨by omega, ?_, ?_, h4, fun _ => h5 hst, h6, h7, ?_, ?_, ?_⟩
              · intro hx
                have := h2 hx
                omega
              · intro hx
                exact h3 hx
              · simp [countTops] at h8 ⊢
                omega
              · simp [hasNotif] at h9 ⊢
                exact h9
              · intro e he
                simp only [List.mem_cons] at he
                rcases he with he | he | he
                · cases he
                  omega
                · cases he
                · have := h10 e he
                  omega
          · rw [innerGo_succ_skip env d n polls elapsed st running h hrc] at hr
            subst hr
            simp [countTops, hasNotif]
            omega
          · rw [innerGo_succ_quit env d n polls elapsed st running h hrc] at hr
            subst hr
            simp [countTops, hasNotif]
            omega
        · by_cases hst : st = TimerState.Paused
          · subst hst
            rw [innerGo_succ_fall_paused env d n polls elapsed running h
              (Or.inr hrc)] at hr
            subst hr
            simp [countTops, hasNotif]
            omega
          · rw [innerGo_succ_fall env d n polls elapsed st running h
              (Or.inr hrc) hst] at hr
            subst hr
            dsimp only
            obtain ⟨h1, h2, h3, h4, h5, h6, h7, h8, h9, h10⟩ :=
              ih (polls + 1) (elapsed + 1) st running _ rfl
            refine ⟨by omega, ?_, ?_, h4, fun _ => h5 hst, h6, h7, ?_, ?_, ?_⟩
            · intro hx
              have := h2 hx
              omega
            · intro hx
              exact h3 hx
            · simp [countTops] at h8 ⊢
              omega
            · simp [hasNotif] at h9 ⊢
              exact h9
            · intro e he
              simp only [List.mem_cons] at he
              rcases he with he | he | he
              · cases he
                omega
              · cases he
              · have := h10 e he
                omega
        · rw [innerGo_succ_disc env d n polls elapsed st running h hrc] at hr
          subst hr
          simp [countTops, hasNotif]
          omega
      · rw [innerGo_stop env d (n + 1) polls elapsed st running h] at hr
        subst hr
        simp [countTops, hasNotif]
        omega
/-- Under an environment that never delivers Quit and never reports a
disconnected channel, the inner loop never clears the shared flag. -/
theorem innerGo_keeps_running (env : Env) (d : Nat)
    (henv : ∀ k, env.recv k ≠ RecvResult.ok TimerCommand.Quit ∧
                 env.recv k ≠ RecvResult.disconnected) :
    ∀ fuel polls elapsed st running,
      (innerGo env d fuel polls elapsed st running).running = running := by
  intro fuel
  induction fuel with
  | zero =>
      intro polls elapsed st running
      by_cases h : elapsed < d <;> simp [innerGo_zero, h]
  | succ n ih =>
      intro polls elapsed st running
      by_cases h : elapsed < d
      · rcases hrc : env.recv polls with c | - | -
        · cases c
          · simp [innerGo_succ_pause env d n polls elapsed st running h hrc]
          · by_cases hst : st = TimerState.Paused
            · subst hst
              simp [innerGo_succ_fall_paused env d n polls elapsed running h
                (Or.inl hrc)]
            · rw [innerGo_succ_fall env d n polls elapsed st running h
                (Or.inl hrc) hst]
              exact ih (polls + 1) (elapsed + 1) st running
          · simp [innerGo_succ_skip env d n polls elapsed st running h hrc]
          · exact absurd hrc (henv polls).1
        · by_cases hst : st = TimerState.Paused
          · subst hst
            simp [innerGo_succ_fall_paused env d n polls elapsed running h
              (Or.inr hrc)]
          · rw [innerGo_succ_fall env d n polls elapsed st running h
              (Or.inr hrc) hst]
            exact ih (polls + 1) (elapsed + 1) st running
        · exact absurd hrc (henv polls).2
      · simp [innerGo_stop env d (n + 1) polls elapsed st running h]

/-- Under an environment in which every receive finds the channel empty
or yields the no-op Resume, the countdown always completes naturally,
with state and flag untouched, polling once per remaining second. -/
theorem innerGo_benign (env : Env) (d : Nat)
    (henv : ∀ k, env.recv k = RecvResult.empty ∨
                 env.recv k = RecvResult.ok TimerCommand.Resume) :
    ∀ fuel polls elapsed st running, ¬ st = TimerState.Paused →
      d - elapsed ≤ fuel →
      (innerGo env d fuel polls elapsed st running).exit = InnerExit.natural ∧
      (innerGo env d fuel polls elapsed st running).st = st ∧
      (innerGo env d fuel polls elapsed st running).running = running ∧
      (innerGo env d fuel polls elapsed st running).polls =
        polls + (d - elapsed) ∧
      (innerGo env d fuel polls elapsed st running).elapsed = max elapsed d := by
  intro fuel
  induction fuel with
  | zero =>
      intro polls elapsed st running hst hfuel
      have h : ¬ elapsed < d := by omega
      rw [innerGo_stop env d 0 polls elapsed st running h]
      refine ⟨rfl, rfl, rfl, by dsimp only; omega, by dsimp only; omega⟩
  | succ n ih =>
      intro polls elapsed st running hst hfuel
      by_cases h : elapsed < d
      · have hrc : env.recv polls = RecvResult.ok TimerCommand.Resume ∨
            env.recv polls = RecvResult.empty := (henv polls).symm
        rw [innerGo_succ_fall env d n polls elapsed st running h hrc hst]
        obtain ⟨h1, h2, h3, h4, h5⟩ :=
          ih (polls + 1) (elapsed + 1) st running hst (by omega)
        exact ⟨h1, h2, h3, by dsimp only; rw [h4]; omega, by dsimp only; rw [h5]; omega⟩
      · rw [innerGo_stop env d (n + 1) polls elapsed st running h]
        refine ⟨rfl, rfl, rfl, by dsimp only; omega, by dsimp only; omega⟩
/-! ## Events helpers -/

theorem startedEvents_of_no_notif :
    ∀ evs, hasNotif evs = false → startedEvents evs = [] := by
  intro evs
  induction evs with
  | nil => intro _; rfl
  | cons e tl ih =>
      intro h
      simp only [hasNotif, List.any_cons, Bool.or_eq_false_iff] at h
      obtain ⟨h1, h2⟩ := h
      have htl : startedEvents tl = [] := ih (by simpa [hasNotif] using h2)
      cases e <;> simp [startedEvents, List.filter_cons] at h1 ⊢ <;>
        simpa [startedEvents] using htl

theorem startedEvents_append (a b : List Event) :
    startedEvents (a ++ b) = startedEvents a ++ startedEvents b := by
  simp [startedEvents, List.filter_append]

/-! ## Lemmas about one outer-loop iteration -/

/-- The Paused arm of the outer loop: a 100 ms sleep and `continue` —
no channel receive, no flag load, no state change, no notification. -/
theorem outerIter_paused (cfg : Config) (env : Env) (m : Machine)
    (h : m.current_state = TimerState.Paused) :
    outerIter cfg env m = (m, [Event.pausedSleep]) := by
  obtain ⟨st, c, run, p, l, hl⟩ := m
  simp only at h
  subst h
  rfl

/-- The post-countdown tail never decreases the session counter and
never sets `halted`. -/
theorem afterInner_count_mono (env : Env) (label : String) (dur : Nat)
    (m : Machine) (r : InnerRes) :
    m.session_count ≤ (afterInner env label dur m r).1.session_count ∧
    (afterInner env label dur m r).1.halted = m.halted := by
  obtain ⟨rst, rrun, rp, rel, rev, rex⟩ := r
  cases rst <;> simp [afterInner] <;> split_ifs <;> simp

/-- The session counter never decreases across one outer iteration, and
the iteration itself never sets `halted`. -/
theorem outerIter_count_mono (cfg : Config) (env : Env) (m : Machine) :
    m.session_count ≤ (outerIter cfg env m).1.session_count ∧
    (outerIter cfg env m).1.halted = m.halted := by
  obtain ⟨st, c, run, p, l, hl⟩ := m
  cases st
  case Paused => exact ⟨le_refl _, rfl⟩
  case Stopped => exact ⟨le_refl _, rfl⟩
  case Work =>
    simpa [outerIter] using
      afterInner_count_mono env "Work" (sessionSecs cfg.work_minutes)
        ⟨TimerState.Work, c, run, p, l, hl⟩
        (innerGo env (sessionSecs cfg.work_minutes)
          (sessionSecs cfg.work_minutes) p 0 TimerState.Work run)
  case Break =>
    simpa [outerIter] using
      afterInner_count_mono env "Break" (sessionSecs cfg.break_minutes)
        ⟨TimerState.Break, c, run, p, l, hl⟩
        (innerGo env (sessionSecs cfg.break_minutes)
          (sessionSecs cfg.break_minutes) p 0 TimerState.Break run)
/-- The state the switch step moves to from an active state. -/
def otherState : TimerState → TimerState
  | TimerState.Work => TimerState.Break
  | TimerState.Break => TimerState.Work
  | s => s

/-- The inner countdown exactly as the outer iteration invokes it for
the active state of `m`. -/
def innerOf (cfg : Config) (env : Env) (m : Machine) : InnerRes :=
  innerGo env
    (sessionSecs (if m.current_state = TimerState.Work then cfg.work_minutes
      else cfg.break_minutes))
    (sessionSecs (if m.current_state = TimerState.Work then cfg.work_minutes
      else cfg.break_minutes))
    m.polls 0 m.current_state m.running

/-- An active outer iteration is the session-started notification, the
inner countdown, and the `afterInner` tail. -/
theorem outerIter_active (cfg : Config) (env : Env) (m : Machine)
    (h : m.current_state = TimerState.Work ∨
         m.current_state = TimerState.Break) :
    outerIter cfg env m =
      ((afterInner env
          (if m.current_state = TimerState.Work then "Work" else "Break")
          (sessionSecs (if m.current_state = TimerState.Work
            then cfg.work_minutes else cfg.break_minutes))
          m (innerOf cfg env m)).1,
        Event.sessionStarted
          (if m.current_state = TimerState.Work then "Work" else "Break")
          (m.session_count + 1) ::
        (afterInner env
          (if m.current_state = TimerState.Work then "Work" else "Break")
          (sessionSecs (if m.current_state = TimerState.Work
            then cfg.work_minutes else cfg.break_minutes))
          m (innerOf cfg env m)).2) := by
  obtain ⟨st, c, run, p, l, hl⟩ := m
  simp only at h
  rcases h with h | h <;> subst h <;> rfl

/-- If the inner countdown stored `false` into the shared flag (Quit or
a disconnected channel), the tail emits nothing and changes nothing but
the recorded state and counters. -/
theorem afterInner_not_running (env : Env) (label : String) (dur : Nat)
    (m : Machine) (r : InnerRes) (h : r.running = false)
    (hst : ¬ r.st = TimerState.Paused) :
    afterInner env label dur m r =
      ({ m with current_state := r.st, running := false, polls := r.polls,
                loads := m.loads + 2 }, r.events) := by
  obtain ⟨rst, rrun, rp, rel, rev, rex⟩ := r
  simp only at h hst
  subst h
  cases rst <;> simp [afterInner] at hst ⊢

/-- If the countdown ended with state Paused, the tail is skipped
(`continue`). -/
theorem afterInner_paused (env : Env) (label : String) (dur : Nat)
    (m : Machine) (r : InnerRes) (h : r.st = TimerState.Paused) :
    afterInner env label dur m r =
      ({ m with current_state := TimerState.Paused, running := r.running,
                polls := r.polls }, r.events) := by
  obtain ⟨rst, rrun, rp, rel, rev, rex⟩ := r
  simp only at h
  subst h
  simp [afterInner]

/-- Exactly when the countdown ends in an active state with the shared
flag still observed true does the switch step increment the counter —
regardless of whether the duration elapsed. -/
theorem afterInner_count (env : Env) (label : String) (dur : Nat)
    (m : Machine) (r : InnerRes) :
    (afterInner env label dur m r).1.session_count =
      m.session_count +
        (if (r.st = TimerState.Work ∨ r.st = TimerState.Break) ∧
            (r.running && env.flag (m.loads + 1)) = true then 1 else 0) := by
  obtain ⟨rst, rrun, rp, rel, rev, rex⟩ := r
  cases rst <;> simp [afterInner] <;> split_ifs <;> simp_all
theorem no_started_of_no_notif (evs : List Event)
    (h : hasNotif evs = false) :
    ∀ a ∈ evs,
      (match a with
        | Event.sessionStarted _ _ => true
        | _ => false) = false := by
  intro a ha
  simp only [hasNotif, List.any_eq_false] at h
  have := h a ha
  cases a <;> simp_all

theorem startedEvents_cons_started (label : String) (ord : Nat)
    (tl : List Event) :
    startedEvents (Event.sessionStarted label ord :: tl) =
      Event.sessionStarted label ord :: startedEvents tl := rfl

/-- The tail when the countdown completed naturally in an active state
with the shared flag observed true at both loads: session-finished
notification, switch of state, counter increment. -/
theorem afterInner_natural_true (env : Env) (label : String) (dur : Nat)
    (m : Machine) (r : InnerRes) (hact : r.st = TimerState.Work ∨
      r.st = TimerState.Break) (hrun : r.running = true)
    (hf1 : env.flag m.loads = true) (hf2 : env.flag (m.loads + 1) = true)
    (hel : dur ≤ r.elapsed) :
    afterInner env label dur m r =
      ({ m with current_state := otherState r.st,
                session_count := m.session_count + 1, running := true,
                polls := r.polls, loads := m.loads + 2 },
        r.events ++ [Event.sessionFinished label]) := by
  obtain ⟨rst, rrun, rp, rel, rev, rex⟩ := r
  simp only at hact hrun hel
  subst hrun
  rcases hact with h | h <;> subst h <;>
    simp [afterInner, otherState, hf1, hf2, hel]

/-- One active outer iteration under a benign environment (channel
always empty or Resume, flag never cleared externally): completes the
session, switches the state, increments the counter, and emits exactly
one session-started notification. -/
theorem outerIter_benign (cfg : Config) (env : Env)
    (hrecv : ∀ k, env.recv k = RecvResult.empty ∨
                  env.recv k = RecvResult.ok TimerCommand.Resume)
    (hf : ∀ k, env.flag k = true) (st : TimerState) (c p l : Nat)
    (hst : st = TimerState.Work ∨ st = TimerState.Break) :
    (outerIter cfg env ⟨st, c, true, p, l, false⟩).1 =
      ⟨otherState st, c + 1, true,
        p + sessionSecs (if st = TimerState.Work then cfg.work_minutes
          else cfg.break_minutes), l + 2, false⟩ ∧
    startedEvents (outerIter cfg env ⟨st, c, true, p, l, false⟩).2 =
      [Event.sessionStarted
        (if st = TimerState.Work then "Work" else "Break") (c + 1)] := by
  have hstp : ¬ st = TimerState.Paused := by
    rcases hst with h | h <;> subst h <;> simp
  set d := sessionSecs (if st = TimerState.Work then cfg.work_minutes
    else cfg.break_minutes) with hd
  have hout := outerIter_active cfg env ⟨st, c, true, p, l, false⟩ hst
  have hin := innerGo_benign env d hrecv d p 0 st true hstp (by omega)
  have hinOf : innerOf cfg env ⟨st, c, true, p, l, false⟩ =
      innerGo env d d p 0 st true := rfl
  obtain ⟨he, hs, hr, hp, helaps⟩ := hin
  have haft := afterInner_natural_true env
    (if st = TimerState.Work then "Work" else "Break") d
    ⟨st, c, true, p, l, false⟩ (innerGo env d d p 0 st true)
    (by rw [hs]; exact hst) hr (hf l) (hf (l + 1))
    (by rw [helaps]; omega)
  rw [hinOf] at hout
  rw [haft] at hout
  rw [hout]
  constructor
  · simp only [hs, hp]
    rfl
  · have hnn : hasNotif (innerGo env d d p 0 st true).events = false := by
      obtain ⟨-, -, -, -, -, -, -, -, h9, -⟩ :=
        innerGo_master env d d p 0 st true _ rfl
      exact h9
    simp [startedEvents_cons_started, startedEvents_append,
      startedEvents_of_no_notif _ hnn, startedEvents]
    exact no_started_of_no_notif _ hnn
/-- The active state after `n` completed sessions starting from `st`. -/
def iterState (st : TimerState) : Nat → TimerState
  | 0 => st
  | i + 1 => iterState (otherState st) i

theorem hasNotif_append (a b : List Event) :
    hasNotif (a ++ b) = (hasNotif a || hasNotif b) := by
  simp [hasNotif, List.any_append]

/-- The tail always records the countdown's copy of the shared flag and
never touches `halted`. -/
theorem afterInner_running (env : Env) (label : String) (dur : Nat)
    (m : Machine) (r : InnerRes) :
    (afterInner env label dur m r).1.running = r.running ∧
    (afterInner env label dur m r).1.halted = m.halted := by
  obtain ⟨rst, rrun, rp, rel, rev, rex⟩ := r
  cases rst <;> simp [afterInner] <;> split_ifs <;> simp

/-! ## Lemmas about the outer loop -/

/-- Permanent pause: from Paused the outer loop only sleeps (or exits),
consumes nothing from the channel, counts nothing, notifies nothing. -/
theorem run_paused (cfg : Config) (env : Env) :
    ∀ n m, m.current_state = TimerState.Paused →
      (run cfg env n m).1.current_state = TimerState.Paused ∧
      (run cfg env n m).1.session_count = m.session_count ∧
      (run cfg env n m).1.polls = m.polls ∧
      hasNotif (run cfg env n m).2 = false := by
  intro n
  induction n with
  | zero => intro m h; exact ⟨h, rfl, rfl, rfl⟩
  | succ k ih =>
      intro m h
      obtain ⟨st, c, run0, p, l, hl⟩ := m
      simp only at h
      subst h
      cases hl
      case true => simp [run, hasNotif]
      case false =>
        by_cases hc : (run0 && env.flag l) = true
        · have hout := outerIter_paused cfg env
            ⟨TimerState.Paused, c, run0, p, l + 1, false⟩ rfl
          have hih := ih ⟨TimerState.Paused, c, run0, p, l + 1, false⟩ rfl
          simp only [run, hc]
          simp [hout, hasNotif_append, hih.1, hih.2.1, hih.2.2.1, hasNotif]
          intro x hx
          have h4 := hih.2.2.2
          simp only [hasNotif, List.any_eq_false] at h4
          have h5 := h4 x hx
          cases x <;> simp_all
        · simp [run, hc, hasNotif]
/-- The session counter never decreases across any number of outer-loop
steps. -/
theorem run_count_mono (cfg : Config) (env : Env) :
    ∀ n m, m.session_count ≤ (run cfg env n m).1.session_count := by
  intro n
  induction n with
  | zero => intro m; exact le_refl _
  | succ k ih =>
      intro m
      obtain ⟨st, c, run0, p, l, hl⟩ := m
      cases hl
      case true => simp [run]
      case false =>
        by_cases hc : (run0 && env.flag l) = true
        · have h1 := (outerIter_count_mono cfg env
            ⟨st, c, run0, p, l + 1, false⟩).1
          have h2 := ih (outerIter cfg env ⟨st, c, run0, p, l + 1, false⟩).1
          simp only at h1
          simp [run, hc]
          exact le_trans h1 h2
        · simp [run, hc]

/-- If the shared flag is observed false at the top of the outer loop
(either because the timer thread itself stored false, or because the
input thread did), the loop exits at once, with no notification. -/
theorem run_cond_false (cfg : Config) (env : Env) (n : Nat) (m : Machine)
    (hh : m.halted = false) (hc : (m.running && env.flag m.loads) = false) :
    (run cfg env (n + 1) m).1.halted = true ∧
    (run cfg env (n + 1) m).2 = [Event.stopped] := by
  simp [run, hh, hc]
/-- One active iteration keeps the flag true when the environment never
delivers Quit and the channel never disconnects. -/
theorem outerIter_keeps_running (cfg : Config) (env : Env)
    (henv : ∀ k, env.recv k ≠ RecvResult.ok TimerCommand.Quit ∧
                 env.recv k ≠ RecvResult.disconnected) (m : Machine)
    (h : m.running = true) :
    (outerIter cfg env m).1.running = true ∧
    (outerIter cfg env m).1.halted = m.halted := by
  obtain ⟨st, c, run0, p, l, hl⟩ := m
  simp only at h
  subst h
  cases st
  case Paused => exact ⟨rfl, rfl⟩
  case Stopped => exact ⟨rfl, rfl⟩
  case Work =>
    simp only [outerIter_active cfg env ⟨TimerState.Work, c, true, p, l, hl⟩
      (Or.inl rfl)]
    refine ⟨?_, (afterInner_running env _ _ _ _).2⟩
    rw [(afterInner_running env _ _ _ _).1]
    exact innerGo_keeps_running env _ henv _ _ _ _ _
  case Break =>
    simp only [outerIter_active cfg env ⟨TimerState.Break, c, true, p, l, hl⟩
      (Or.inr rfl)]
    refine ⟨?_, (afterInner_running env _ _ _ _).2⟩
    rw [(afterInner_running env _ _ _ _).1]
    exact innerGo_keeps_running env _ henv _ _ _ _ _
/-- The timer thread never exits its loop while the input thread keeps
the flag set and neither Quit nor a disconnection ever reaches it. -/
theorem run_keeps_running (cfg : Config) (env : Env)
    (henv : ∀ k, env.recv k ≠ RecvResult.ok TimerCommand.Quit ∧
                 env.recv k ≠ RecvResult.disconnected)
    (hf : ∀ k, env.flag k = true) :
    ∀ n m, m.running = true → m.halted = false →
      (run cfg env n m).1.running = true ∧
      (run cfg env n m).1.halted = false := by
  intro n
  induction n with
  | zero => intro m h hh; exact ⟨h, hh⟩
  | succ k ih =>
      intro m h hh
      obtain ⟨st, c, run0, p, l, hl⟩ := m
      simp only at h hh
      subst h
      subst hh
      have hc : (true && env.flag l) = true := by simp [hf l]
      have hko := outerIter_keeps_running cfg env henv
        ⟨st, c, true, p, l + 1, false⟩ rfl
      have hih := ih (outerIter cfg env ⟨st, c, true, p, l + 1, false⟩).1
        hko.1 hko.2
      simp [run, hc]
      exact hih
/-- Under a benign environment the timer loop completes one session per
iteration: counters advance one by one, the state alternates, and the
session-started notifications carry the alternating labels and
1-based ordinals. -/
theorem run_benign (cfg : Config) (env : Env)
    (hrecv : ∀ k, env.recv k = RecvResult.empty ∨
                  env.recv k = RecvResult.ok TimerCommand.Resume)
    (hf : ∀ k, env.flag k = true) :
    ∀ n st c p l, (st = TimerState.Work ∨ st = TimerState.Break) →
      (run cfg env n ⟨st, c, true, p, l, false⟩).1.session_count = c + n ∧
      (run cfg env n ⟨st, c, true, p, l, false⟩).1.current_state =
        iterState st n ∧
      (run cfg env n ⟨st, c, true, p, l, false⟩).1.running = true ∧
      (run cfg env n ⟨st, c, true, p, l, false⟩).1.halted = false ∧
      startedEvents (run cfg env n ⟨st, c, true, p, l, false⟩).2 =
        (List.range n).map (fun i =>
          Event.sessionStarted
            (if iterState st i = TimerState.Work then "Work" else "Break")
            (c + 1 + i)) := by
  intro n
  induction n with
  | zero =>
      intro st c p l hst
      exact ⟨rfl, rfl, rfl, rfl, rfl⟩
  | succ k ih =>
      intro st c p l hst
      have hc : (true && env.flag l) = true := by simp [hf l]
      have hob := outerIter_benign cfg env hrecv hf st c p (l + 1) hst
      have hst2 : otherState st = TimerState.Work ∨
          otherState st = TimerState.Break := by
        rcases hst with h | h <;> subst h <;> simp [otherState]
      have hih := ih (otherState st) (c + 1)
        (p + sessionSecs (if st = TimerState.Work then cfg.work_minutes
          else cfg.break_minutes)) (l + 1 + 2) hst2
      simp only [run, hc, if_true, Bool.false_eq_true, if_false,
        startedEvents_append, hob.1]
      refine ⟨?_, ?_, ?_, ?_, ?_⟩
      · rw [hih.1]; omega
      · exact hih.2.1
      · exact hih.2.2.1
      · exact hih.2.2.2.1
      · rw [hob.2, hih.2.2.2.2]
        rw [List.range_succ_eq_map, List.map_cons, List.map_map]
        simp only [iterState, List.singleton_append]
        congr 1
        apply List.map_congr_left
        intro i hi
        simp only [Function.comp, iterState]
        congr 1
        omega
/-- Alternation: starting from Work, the active state after `i`
sessions is Work exactly when `i` is even (and dually from Break). -/
theorem iterState_parity : ∀ i,
    iterState TimerState.Work i =
      (if i % 2 = 0 then TimerState.Work else TimerState.Break) ∧
    iterState TimerState.Break i =
      (if i % 2 = 0 then TimerState.Break else TimerState.Work) := by
  intro i
  induction i with
  | zero => exact ⟨rfl, rfl⟩
  | succ k ih =>
      refine ⟨?_, ?_⟩
      · show iterState TimerState.Break k = _
        rw [ih.2]
        by_cases h : k % 2 = 0
        · have h2 : (k + 1) % 2 = 1 := by omega
          simp [h, h2]
        · have h2 : (k + 1) % 2 = 0 := by omega
          simp [h, h2]
      · show iterState TimerState.Work k = _
        rw [ih.1]
        by_cases h : k % 2 = 0
        · have h2 : (k + 1) % 2 = 1 := by omega
          simp [h, h2]
        · have h2 : (k + 1) % 2 = 0 := by omega
          simp [h, h2]

/-! ## Lemmas about the input reader -/

theorem cmdOfLine_quit_iff (l : String) :
    cmdOfLine l = some TimerCommand.Quit ↔ normalizeLine l = "q" := by
  simp only [cmdOfLine]
  split <;> simp_all

theorem inputReader_quit (l : String) (rest : List String)
    (h : cmdOfLine l = some TimerCommand.Quit) :
    inputReader (l :: rest) = ⟨[TimerCommand.Quit], true, 0⟩ := by
  simp [inputReader, h]

theorem inputReader_cmd (l : String) (rest : List String) (c : TimerCommand)
    (h : cmdOfLine l = some c) (hq : ¬ c = TimerCommand.Quit) :
    inputReader (l :: rest) =
      ⟨c :: (inputReader rest).sent, (inputReader rest).shutdown,
        (inputReader rest).hints⟩ := by
  cases c
  case Quit => exact absurd rfl hq
  all_goals simp [inputReader, h]

theorem inputReader_other (l : String) (rest : List String)
    (h : cmdOfLine l = none) :
    inputReader (l :: rest) =
      ⟨(inputReader rest).sent, (inputReader rest).shutdown,
        (inputReader rest).hints + 1⟩ := by
  simp [inputReader, h]

/-- The flag store happens on exactly the inputs with a "q" line. -/
theorem inputReader_shutdown : ∀ lines : List String,
    (inputReader lines).shutdown =
      lines.any (fun l => normalizeLine l == "q") := by
  intro lines
  induction lines with
  | nil => rfl
  | cons l rest ih =>
      by_cases hq : cmdOfLine l = some TimerCommand.Quit
      · rw [inputReader_quit l rest hq]
        have := (cmdOfLine_quit_iff l).mp hq
        simp [this]
      · have hne : (normalizeLine l == "q") = false := by
          rcases h2 : normalizeLine l == "q" with - | -
          · rfl
          · exact absurd ((cmdOfLine_quit_iff l).mpr (by simpa using h2)) hq
        rcases h : cmdOfLine l with - | c
        · rw [inputReader_other l rest h]
          simp [hne, ih]
        · have hcq : ¬ c = TimerCommand.Quit := by
            intro hc
            exact hq (hc ▸ h)
          rw [inputReader_cmd l rest c h hcq]
          simp [hne, ih]

/-- On an input with no "q" line, the reader neither stores `false`
into the shared flag nor ever sends Quit. -/
theorem inputReader_no_quit : ∀ lines : List String,
    (∀ l ∈ lines, ¬ normalizeLine l = "q") →
    (inputReader lines).shutdown = false ∧
    TimerCommand.Quit ∉ (inputReader lines).sent := by
  intro lines
  induction lines with
  | nil => intro _; exact ⟨rfl, by simp [inputReader]⟩
  | cons l rest ih =>
      intro h
      have hl := h l (List.mem_cons_self l rest)
      have hq : ¬ cmdOfLine l = some TimerCommand.Quit := fun hc =>
        hl ((cmdOfLine_quit_iff l).mp hc)
      have hrest := ih fun x hx => h x (List.mem_cons_of_mem l hx)
      rcases hcl : cmdOfLine l with - | c
      · rw [inputReader_other l rest hcl]
        exact hrest
      · have hcq : ¬ c = TimerCommand.Quit := by
          intro hc
          exact hq (hc ▸ hcl)
        rw [inputReader_cmd l rest c hcl hcq]
        refine ⟨hrest.1, ?_⟩
        simp only [List.mem_cons]
        rintro (hc | hc)
        · exact hcq hc.symm
        · exact hrest.2 hc
/-! ## Lemmas about configuration parsing -/

/-- `parse::<u64>()` only ever produces values in the `u64` range. -/
theorem parseU64_le (s : String) (v : Nat) (h : parseU64 s = some v) :
    v ≤ U64_MAX := by
  simp only [parseU64] at h
  split at h
  · exact absurd h (by simp)
  · split at h
    · split at h
      · simp only [Option.some.injEq] at h
        omega
      · exact absurd h (by simp)
    · exact absurd h (by simp)

theorem configMinutes_none (s : String) (d : Nat)
    (h : parseU64 (strTrim s) = none) : configMinutes s d = d := by
  simp [configMinutes, h]

theorem configMinutes_zero (s : String) (d : Nat)
    (h : parseU64 (strTrim s) = some 0) : configMinutes s d = d := by
  simp [configMinutes, h]

theorem configMinutes_pos (s : String) (d v : Nat)
    (h : parseU64 (strTrim s) = some v) (hv : 0 < v) : configMinutes s d = v := by
  simp [configMinutes, h, hv]
/-! ## Concrete instances used to exercise the theorems -/

/-- A 1-minute/1-minute configuration. -/
def cfg11 : Config := ⟨1, 1⟩

/-- An environment whose every receive delivers Skip. -/
def envSkip : Env := ⟨fun _ => RecvResult.ok TimerCommand.Skip, fun _ => true⟩

/-- A machine idling in the Paused state. -/
def pausedM : Machine := ⟨TimerState.Paused, 0, true, 0, 0, false⟩

/-! ## Claims -/

/-- C1: Once the Timer Loop state is Paused, no subsequent command — in
particular Resume — ever returns it to Work or Break: for every
environment (hence every command sequence and every behaviour of the
Shutdown Signal) the machine stays Paused, consumes nothing from the
channel, counts no session, and emits no notification, until the
Shutdown Signal ends the loop. -/
theorem paused_state_is_permanent (cfg : Config) (env : Env) (n : Nat)
    (m : Machine) (h : m.current_state = TimerState.Paused) :
    (run cfg env n m).1.current_state = TimerState.Paused ∧
    (run cfg env n m).1.session_count = m.session_count ∧
    (run cfg env n m).1.polls = m.polls ∧
    hasNotif (run cfg env n m).2 = false :=
  run_paused cfg env n m h

/-- Witness for C1: three outer iterations from a Paused machine under
an empty channel leave it Paused with nothing consumed or emitted. -/
theorem paused_state_is_permanent_witness :
    (run cfg11 envEmpty 3 pausedM).1.current_state = TimerState.Paused ∧
    (run cfg11 envEmpty 3 pausedM).1.session_count =
      pausedM.session_count ∧
    (run cfg11 envEmpty 3 pausedM).1.polls = pausedM.polls ∧
    hasNotif (run cfg11 envEmpty 3 pausedM).2 = false :=
  paused_state_is_permanent cfg11 envEmpty 3 pausedM rfl

/-- C2 counterexample: one outer iteration whose first receive is Skip
increments the session counter from 0 to 1 even though no time elapsed
(the 60-second Work session shows no tick sleep) and no session-finished
notification was emitted — a Skip command does increment the counter. -/
theorem skip_increments_counter_cex :
    (run cfg11 envSkip 1 initMachine).1.session_count = 1 ∧
    (run cfg11 envSkip 1 initMachine).2 =
      [Event.sessionStarted "Work" 1, Event.tickTop 0, Event.skipNotice] :=
  ⟨rfl, rfl⟩

/-- C2 amended: the Session Counter never decreases and is never
incremented while Paused; it is incremented exactly when the countdown
of an active session ends in an active state (not Paused) with the
shared flag still observed true at the switch step — which happens on
natural completion AND on Skip (a Skip does increment the counter). -/
theorem session_counter_amended (cfg : Config) (env : Env) (n : Nat)
    (m : Machine) :
    m.session_count ≤ (run cfg env n m).1.session_count ∧
    (m.current_state = TimerState.Paused →
      (run cfg env n m).1.session_count = m.session_count) ∧
    ((m.current_state = TimerState.Work ∨
      m.current_state = TimerState.Break) →
      (outerIter cfg env m).1.session_count =
        m.session_count +
          (if ((innerOf cfg env m).st = TimerState.Work ∨
               (innerOf cfg env m).st = TimerState.Break) ∧
              ((innerOf cfg env m).running && env.flag (m.loads + 1)) = true
           then 1 else 0)) := by
  refine ⟨run_count_mono cfg env n m,
    fun h => (run_paused cfg env n m h).2.1, fun h => ?_⟩
  rw [outerIter_active cfg env m h]
  exact afterInner_count env _ _ m (innerOf cfg env m)

/-- Witness for C2's amended statement: monotonicity at a concrete run,
no increment across a paused step, and the +1 increment of a concrete
skipped session. -/
theorem session_counter_amended_witness :
    initMachine.session_count ≤
      (run cfg11 envSkip 1 initMachine).1.session_count ∧
    (run cfg11 envSkip 1 pausedM).1.session_count =
      pausedM.session_count ∧
    (outerIter cfg11 envSkip initMachine).1.session_count =
      initMachine.session_count + 1 := by
  refine ⟨(session_counter_amended cfg11 envSkip 1 initMachine).1,
    (session_counter_amended cfg11 envSkip 1 pausedM).2.1 rfl, ?_⟩
  rw [(session_counter_amended cfg11 envSkip 1 initMachine).2.2
    (Or.inl rfl)]
  decide
/-- C3: for every positive (work, break) configuration, while no
Pause/Skip/Quit is ever consumed (each receive finds the channel empty
or the no-op Resume) and the Shutdown Signal stays in the running
position, the first session is Work and the sessions strictly
alternate Work, Break, Work, Break, … with 1-based ordinals. -/
theorem sessions_alternate (cfg : Config) (env : Env) (n : Nat)
    (hw : 0 < cfg.work_minutes) (hb : 0 < cfg.break_minutes)
    (hrecv : ∀ k, env.recv k = RecvResult.empty ∨
                  env.recv k = RecvResult.ok TimerCommand.Resume)
    (hf : ∀ k, env.flag k = true) :
    startedEvents (run cfg env n initMachine).2 =
      (List.range n).map (fun i =>
        Event.sessionStarted (if i % 2 = 0 then "Work" else "Break")
          (i + 1)) := by
  have h := (run_benign cfg env hrecv hf n TimerState.Work 0 0 0
    (Or.inl rfl)).2.2.2.2
  rw [show initMachine =
    (⟨TimerState.Work, 0, true, 0, 0, false⟩ : Machine) from rfl]
  rw [h]
  apply List.map_congr_left
  intro i hi
  rw [(iterState_parity i).1]
  by_cases h2 : i % 2 = 0 <;> simp [h2, Nat.add_comm]
/-- Witness for C3: two sessions under the empty-channel environment
start with Work and alternate. -/
theorem sessions_alternate_witness :
    startedEvents (run cfg11 envEmpty 2 initMachine).2 =
      [Event.sessionStarted "Work" 1, Event.sessionStarted "Break" 2] := by
  rw [sessions_alternate cfg11 envEmpty 2 (by decide) (by decide)
    (fun k => Or.inl rfl) (fun k => rfl)]
  rfl

/-- C4: starting a session countdown (elapsed 0, fuel equal to the
configured duration, as every call site does): the elapsed time behind
every remaining-time display is at most the duration; the loop exits
naturally exactly when elapsed reaches or exceeds the duration; and at
a natural exit the elapsed time is between the duration and the
duration plus one one-second tick. -/
theorem elapsed_time_bounds (env : Env) (d polls : Nat) (st : TimerState)
    (running : Bool) :
    (∀ e, Event.tickTop e ∈ (innerGo env d d polls 0 st running).events →
      e ≤ d) ∧
    ((innerGo env d d polls 0 st running).exit = InnerExit.natural ↔
      d ≤ (innerGo env d d polls 0 st running).elapsed) ∧
    ((innerGo env d d polls 0 st running).exit = InnerExit.natural →
      d ≤ (innerGo env d d polls 0 st running).elapsed ∧
      (innerGo env d d polls 0 st running).elapsed ≤ d + 1) := by
  obtain ⟨h1, h2, h3, h4, h5, h6, h7, h8, h9, h10⟩ :=
    innerGo_master env d d polls 0 st running _ rfl
  refine ⟨fun e he => le_of_lt (h10 e he).2, ⟨fun hx => ?_, fun hx => ?_⟩,
    fun hx => ?_⟩
  · have := h2 hx
    omega
  · by_contra hne
    have := h3 hne
    omega
  · have := h2 hx
    omega

/-- Witness for C4 at duration 2 under the empty channel: the display
at elapsed 1 is within bounds, the exit is natural exactly at
elapsed ≥ 2, and the natural-exit elapsed time is within one tick. -/
theorem elapsed_time_bounds_witness :
    (1 : Nat) ≤ 2 ∧
    ((innerGo envEmpty 2 2 0 0 TimerState.Work true).exit =
        InnerExit.natural ↔
      2 ≤ (innerGo envEmpty 2 2 0 0 TimerState.Work true).elapsed) ∧
    (2 ≤ (innerGo envEmpty 2 2 0 0 TimerState.Work true).elapsed ∧
      (innerGo envEmpty 2 2 0 0 TimerState.Work true).elapsed ≤ 3) :=
  ⟨(elapsed_time_bounds envEmpty 2 0 TimerState.Work true).1 1 (by decide),
   (elapsed_time_bounds envEmpty 2 0 TimerState.Work true).2.1,
   (elapsed_time_bounds envEmpty 2 0 TimerState.Work true).2.2 (by decide)⟩
/-- C5: after a Quit is consumed the countdown stores false into the
shared flag at once; a loop whose flag is observed false halts at the
very next check (within one tick / one 100 ms poll, also from Paused
when the Input Reader cleared the flag) emitting only the stop line; in
the iteration that consumed Quit no session-finished notification and
no state switch follow; and a "q" line makes the Input Reader send
Quit, store false, and stop reading. -/
theorem quit_terminates_promptly (cfg : Config) (env : Env) :
    (∀ d fuel polls elapsed st running,
      (innerGo env d fuel polls elapsed st running).exit =
        InnerExit.quitBreak →
      (innerGo env d fuel polls elapsed st running).running = false) ∧
    (∀ n m, m.running = false → m.halted = false →
      (run cfg env (n + 1) m).1.halted = true ∧
      (run cfg env (n + 1) m).2 = [Event.stopped]) ∧
    (∀ m, (m.current_state = TimerState.Work ∨
           m.current_state = TimerState.Break) →
      (innerOf cfg env m).exit = InnerExit.quitBreak →
      (outerIter cfg env m).1.running = false ∧
      (outerIter cfg env m).1.session_count = m.session_count ∧
      hasNotif (outerIter cfg env m).2.tail = false) ∧
    (∀ n m, m.current_state = TimerState.Paused → m.halted = false →
      env.flag m.loads = false →
      (run cfg env (n + 1) m).1.halted = true ∧
      (run cfg env (n + 1) m).2 = [Event.stopped]) ∧
    (∀ l rest, normalizeLine l = "q" →
      inputReader (l :: rest) = ⟨[TimerCommand.Quit], true, 0⟩) := by
  refine ⟨?_, ?_, ?_, ?_, ?_⟩
  · intro d fuel polls elapsed st running hx
    obtain ⟨-, -, -, -, -, h6, -, -, -, -⟩ :=
      innerGo_master env d fuel polls elapsed st running _ rfl
    exact h6 (Or.inl hx)
  · intro n m h hh
    exact run_cond_false cfg env n m hh (by simp [h])
  · intro m hact hq
    have hstp : ¬ m.current_state = TimerState.Paused := by
      rcases hact with h | h <;> simp [h]
    obtain ⟨-, -, -, -, g5, g6, -, -, g9, -⟩ :=
      innerGo_master env
        (sessionSecs (if m.current_state = TimerState.Work
          then cfg.work_minutes else cfg.break_minutes))
        (sessionSecs (if m.current_state = TimerState.Work
          then cfg.work_minutes else cfg.break_minutes))
        m.polls 0 m.current_state m.running _ rfl
    have hq2 : (innerGo env
        (sessionSecs (if m.current_state = TimerState.Work
          then cfg.work_minutes else cfg.break_minutes))
        (sessionSecs (if m.current_state = TimerState.Work
          then cfg.work_minutes else cfg.break_minutes))
        m.polls 0 m.current_state m.running).exit =
          InnerExit.quitBreak := hq
    have hrun : (innerOf cfg env m).running = false := g6 (Or.inl hq2)
    have hstq : ¬ (innerOf cfg env m).st = TimerState.Paused := by
      have hne : (innerGo env
          (sessionSecs (if m.current_state = TimerState.Work
            then cfg.work_minutes else cfg.break_minutes))
          (sessionSecs (if m.current_state = TimerState.Work
            then cfg.work_minutes else cfg.break_minutes))
          m.polls 0 m.current_state m.running).exit ≠
            InnerExit.pausedBreak := by
        rw [hq2]
        simp
      have hst2 := g5 hstp hne
      intro hcon
      have hcon2 : (innerGo env
          (sessionSecs (if m.current_state = TimerState.Work
            then cfg.work_minutes else cfg.break_minutes))
          (sessionSecs (if m.current_state = TimerState.Work
            then cfg.work_minutes else cfg.break_minutes))
          m.polls 0 m.current_state m.running).st = TimerState.Paused := hcon
      rw [hst2] at hcon2
      exact hstp hcon2
    rw [outerIter_active cfg env m hact]
    rw [afterInner_not_running env _ _ m (innerOf cfg env m) hrun hstq]
    exact ⟨rfl, rfl, g9⟩
  · intro n m h hh hf0
    exact run_cond_false cfg env n m hh (by simp [hf0])
  · intro l rest h
    exact inputReader_quit l rest ((cmdOfLine_quit_iff l).mpr h)
/-- An environment whose every receive delivers Quit. -/
def envQuit : Env := ⟨fun _ => RecvResult.ok TimerCommand.Quit, fun _ => true⟩

/-- An environment with an empty channel whose shared flag reads false
(the input thread has stored false). -/
def envOff : Env := ⟨fun _ => RecvResult.empty, fun _ => false⟩

/-- A machine whose own copy of the shared flag is already false. -/
def stoppedM : Machine := ⟨TimerState.Work, 0, false, 0, 0, false⟩

/-- Witness for C5 at concrete inputs: Quit clears the flag during the
countdown; a cleared flag halts the loop in one step with only the stop
line; the Quit iteration switches nothing and notifies nothing after
the consumption; the Paused loop with an externally cleared flag halts
in one poll; and the reader maps a " Q " line to Quit-and-stop. -/
theorem quit_terminates_promptly_witness :
    (innerGo envQuit 2 2 0 0 TimerState.Work true).running = false ∧
    ((run cfg11 envEmpty 1 stoppedM).1.halted = true ∧
      (run cfg11 envEmpty 1 stoppedM).2 = [Event.stopped]) ∧
    ((outerIter cfg11 envQuit initMachine).1.running = false ∧
      (outerIter cfg11 envQuit initMachine).1.session_count =
        initMachine.session_count ∧
      hasNotif (outerIter cfg11 envQuit initMachine).2.tail = false) ∧
    ((run cfg11 envOff 1 pausedM).1.halted = true ∧
      (run cfg11 envOff 1 pausedM).2 = [Event.stopped]) ∧
    inputReader [" Q "] = ⟨[TimerCommand.Quit], true, 0⟩ :=
  ⟨(quit_terminates_promptly cfg11 envQuit).1 2 2 0 0 TimerState.Work true
      (by decide),
   (quit_terminates_promptly cfg11 envEmpty).2.1 0 stoppedM rfl rfl,
   (quit_terminates_promptly cfg11 envQuit).2.2.1 initMachine (Or.inl rfl)
      (by decide),
   (quit_terminates_promptly cfg11 envOff).2.2.2.1 0 pausedM rfl rfl rfl,
   (quit_terminates_promptly cfg11 envEmpty).2.2.2.2 " Q " [] (by decide)⟩
/-- C6 counterexample: an outer iteration taken while Paused (the
100 ms idle sleep shows it ran) performs zero non-blocking channel
receives, not one — the Paused arm never calls `try_recv()`. -/
theorem paused_iteration_no_poll_cex :
    (run cfg11 envEmpty 1 pausedM).1.polls = 0 ∧
    (run cfg11 envEmpty 1 pausedM).2 = [Event.pausedSleep] :=
  ⟨rfl, rfl⟩

/-- C6 amended: while a session is active the loop performs exactly one
non-blocking channel receive per displayed ~1-second tick (receives
consumed = remaining-time displays); while Paused each ~100 ms
iteration performs no channel receive at all, only sleeping and
re-checking the Shutdown Signal. -/
theorem channel_sampling_amended (cfg : Config) (env : Env) (m : Machine)
    (d fuel polls elapsed : Nat) (st : TimerState) (running : Bool) :
    (m.current_state = TimerState.Paused →
      (outerIter cfg env m).1.polls = m.polls ∧
      (outerIter cfg env m).2 = [Event.pausedSleep]) ∧
    (innerGo env d fuel polls elapsed st running).polls =
      polls + countTops (innerGo env d fuel polls elapsed st running).events := by
  constructor
  · intro h
    rw [outerIter_paused cfg env m h]
    exact ⟨rfl, rfl⟩
  · obtain ⟨-, -, -, -, -, -, -, h8, -, -⟩ :=
      innerGo_master env d fuel polls elapsed st running _ rfl
    exact h8
/-- Witness for C6's amended statement at concrete inputs: a paused
iteration consumes no receive; an active 2-second countdown under the
empty channel consumes one receive per displayed tick. -/
theorem channel_sampling_amended_witness :
    ((outerIter cfg11 envEmpty pausedM).1.polls = pausedM.polls ∧
      (outerIter cfg11 envEmpty pausedM).2 = [Event.pausedSleep]) ∧
    (innerGo envEmpty 2 2 0 0 TimerState.Work true).polls =
      0 + countTops (innerGo envEmpty 2 2 0 0 TimerState.Work true).events :=
  ⟨(channel_sampling_amended cfg11 envEmpty pausedM 2 2 0 0
      TimerState.Work true).1 rfl,
   (channel_sampling_amended cfg11 envEmpty pausedM 2 2 0 0
      TimerState.Work true).2⟩
/-- C7: for every input line the reader normalizes (trims and
lower-cases) it and maps "p" to Pause, "r" to Resume, "s" to Skip;
on "q" it sends Quit, stores false into the Shutdown Signal and stops
reading regardless of what follows; any other line only counts a usage
hint and sends nothing; and the Shutdown Signal is stored exactly on
inputs containing a "q" line. -/
theorem input_reader_mapping (l : String) (rest lines : List String) :
    (normalizeLine l = "p" → inputReader (l :: rest) =
      ⟨TimerCommand.Pause :: (inputReader rest).sent,
        (inputReader rest).shutdown, (inputReader rest).hints⟩) ∧
    (normalizeLine l = "r" → inputReader (l :: rest) =
      ⟨TimerCommand.Resume :: (inputReader rest).sent,
        (inputReader rest).shutdown, (inputReader rest).hints⟩) ∧
    (normalizeLine l = "s" → inputReader (l :: rest) =
      ⟨TimerCommand.Skip :: (inputReader rest).sent,
        (inputReader rest).shutdown, (inputReader rest).hints⟩) ∧
    (normalizeLine l = "q" → inputReader (l :: rest) =
      ⟨[TimerCommand.Quit], true, 0⟩) ∧
    (cmdOfLine l = none → inputReader (l :: rest) =
      ⟨(inputReader rest).sent, (inputReader rest).shutdown,
        (inputReader rest).hints + 1⟩) ∧
    (inputReader lines).shutdown =
      lines.any (fun x => normalizeLine x == "q") := by
  refine ⟨?_, ?_, ?_, ?_, ?_, inputReader_shutdown lines⟩
  · intro h
    exact inputReader_cmd l rest TimerCommand.Pause
      (by simp [cmdOfLine, h]) (by simp)
  · intro h
    exact inputReader_cmd l rest TimerCommand.Resume
      (by simp [cmdOfLine, h]) (by simp)
  · intro h
    exact inputReader_cmd l rest TimerCommand.Skip
      (by simp [cmdOfLine, h]) (by simp)
  · intro h
    exact inputReader_quit l rest ((cmdOfLine_quit_iff l).mpr h)
  · intro h
    exact inputReader_other l rest h

/-- Witness for C7 on concrete lines: " P " sends Pause, "x" only
counts a hint, and the shutdown store happens exactly on the "q"
input. -/
theorem input_reader_mapping_witness :
    inputReader [" P ", "x"] =
      ⟨[TimerCommand.Pause], (inputReader ["x"]).shutdown,
        (inputReader ["x"]).hints⟩ ∧
    inputReader ["x"] = ⟨[], false, 1⟩ ∧
    (inputReader ["p", "q", "s"]).shutdown =
      ["p", "q", "s"].any (fun x => normalizeLine x == "q") := by
  refine ⟨?_, ?_, (input_reader_mapping "p" [] ["p", "q", "s"]).2.2.2.2.2⟩
  · have h := (input_reader_mapping " P " ["x"] []).1 (by decide)
    rw [h]
    decide
  · have h := (input_reader_mapping "x" [] []).2.2.2.2.1 (by decide)
    rw [h]
    decide
/-- C8: a startup prompt keeps the default when the trimmed line does
not parse as a positive `u64` (parse failure or zero), takes the parsed
value otherwise, and the defaults are 25 work / 5 break minutes; the
prompt computes nothing but this one value. -/
theorem config_fallback (s : String) (d : Nat) :
    (parseU64 (strTrim s) = none → configMinutes s d = d) ∧
    (parseU64 (strTrim s) = some 0 → configMinutes s d = d) ∧
    (∀ v, parseU64 (strTrim s) = some v → 0 < v →
      configMinutes s d = v) ∧
    DEFAULT_WORK_MINUTES = 25 ∧ DEFAULT_BREAK_MINUTES = 5 :=
  ⟨configMinutes_none s d, configMinutes_zero s d,
   fun v hv h0 => configMinutes_pos s d v hv h0, rfl, rfl⟩

/-- Witness for C8 on concrete prompt lines: garbage, a negative
number and zero fall back to the default, " 30 " parses to 30. -/
theorem config_fallback_witness :
    configMinutes "abc" 25 = 25 ∧
    configMinutes "-3" 25 = 25 ∧
    configMinutes "0" 5 = 5 ∧
    configMinutes " 30 " 25 = 30 :=
  ⟨(config_fallback "abc" 25).1 (by decide),
   (config_fallback "-3" 25).1 (by decide),
   (config_fallback "0" 5).2.1 (by decide),
   (config_fallback " 30 " 25).2.2.1 30 (by decide) (by decide)⟩

/-- C9: if standard input ends without any "q" line, the reader loop
ends without storing false into the Shutdown Signal and without
sending Quit; with the sender consequently alive (no Quit and no
disconnection ever received) and the flag never cleared, the timer
loop never halts; and with the channel simply empty from then on it
keeps completing one session per iteration, indefinitely. -/
theorem eof_keeps_timer_running (cfg : Config) (env : Env)
    (lines : List String) (n : Nat) :
    ((∀ l ∈ lines, ¬ normalizeLine l = "q") →
      (inputReader lines).shutdown = false ∧
      TimerCommand.Quit ∉ (inputReader lines).sent) ∧
    ((∀ k, env.recv k ≠ RecvResult.ok TimerCommand.Quit ∧
           env.recv k ≠ RecvResult.disconnected) →
     (∀ k, env.flag k = true) →
      (run cfg env n initMachine).1.running = true ∧
      (run cfg env n initMachine).1.halted = false) ∧
    ((∀ k, env.recv k = RecvResult.empty) →
     (∀ k, env.flag k = true) →
      (run cfg env n initMachine).1.session_count = n) := by
  refine ⟨inputReader_no_quit lines, ?_, ?_⟩
  · intro henv hf
    exact run_keeps_running cfg env henv hf n initMachine rfl rfl
  · intro henv hf
    have h := (run_benign cfg env (fun k => Or.inl (henv k)) hf n
      TimerState.Work 0 0 0 (Or.inl rfl)).1
    simpa using h

/-- Witness for C9: the input ["p", "x"] reaches end-of-stream without
"q", storing nothing and sending no Quit; and the timer under the empty
channel is still running after 2 iterations, having completed 2
sessions. -/
theorem eof_keeps_timer_running_witness :
    ((inputReader ["p", "x"]).shutdown = false ∧
      TimerCommand.Quit ∉ (inputReader ["p", "x"]).sent) ∧
    ((run cfg11 envEmpty 2 initMachine).1.running = true ∧
      (run cfg11 envEmpty 2 initMachine).1.halted = false) ∧
    (run cfg11 envEmpty 2 initMachine).1.session_count = 2 :=
  ⟨(eof_keeps_timer_running cfg11 envEmpty ["p", "x"] 2).1 (by decide),
   (eof_keeps_timer_running cfg11 envEmpty ["p", "x"] 2).2.1
      (fun k => ⟨fun h => RecvResult.noConfusion h,
        fun h => RecvResult.noConfusion h⟩) (fun k => rfl),
   (eof_keeps_timer_running cfg11 envEmpty ["p", "x"] 2).2.2
      (fun k => rfl) (fun k => rfl)⟩
/-- C10: the parser accepts exactly the `u64` range (any positive such
value is a legal configuration), the session duration is the `u64`
product `minutes * 60` reduced modulo `2^64` with no overflow guard,
and every accepted minutes value above `⌊(2^64 − 1) / 60⌋` wraps to a
strictly shorter duration than the configured `minutes * 60` seconds. -/
theorem duration_overflow_wraps (s : String) (v minutes : Nat) :
    (parseU64 s = some v → v ≤ U64_MAX) ∧
    (parseU64 s = some v → sessionSecs v = 60 * v % 2 ^ 64) ∧
    (minutes ≤ U64_MAX → U64_MAX / 60 < minutes →
      sessionSecs minutes < minutes * 60) := by
  refine ⟨parseU64_le s v, fun _ => ?_, fun h1 h2 => ?_⟩
  · simp [sessionSecs, U64_MOD, Nat.mul_comm]
  · have hpow : (2 : Nat) ^ 64 = 18446744073709551616 := by norm_num
    have he : sessionSecs minutes =
        minutes * 60 % 18446744073709551616 := by
      simp [sessionSecs, U64_MOD, hpow]
    have h2b : 18446744073709551615 / 60 < minutes := by
      have : U64_MAX = 18446744073709551615 := by
        simp [U64_MAX, hpow]
      rwa [this] at h2
    rw [he]
    omega

/-- Witness for C10 at 2^63 minutes (a legal positive `u64` input,
written "9223372036854775808"): the parse succeeds, and the computed
duration — here 0 seconds — is strictly shorter than the configured
2^63 · 60 seconds. -/
theorem duration_overflow_wraps_witness :
    (9223372036854775808 : Nat) ≤ U64_MAX ∧
    sessionSecs 9223372036854775808 = 60 * 9223372036854775808 % 2 ^ 64 ∧
    sessionSecs 9223372036854775808 < 9223372036854775808 * 60 :=
  ⟨(duration_overflow_wraps "9223372036854775808" 9223372036854775808
      9223372036854775808).1 (by decide),
   (duration_overflow_wraps "9223372036854775808" 9223372036854775808
      9223372036854775808).2.1 (by decide),
   (duration_overflow_wraps "9223372036854775808" 9223372036854775808
      9223372036854775808).2.2 (by decide) (by decide)⟩
